import Mathlib

/-!
Verification of the threshold-sweep / figure-of-merit evaluation pipeline and
the keyed upsert store of the TMVASummerProject repository.

The definitions below are shallow embeddings of the C++ sources:
* `ComputeMetrics`        — src/src/evaluation/CreateEnergyBinnedData.C (lines 49-62)
* `CreateEnergyBinnedData`— src/src/evaluation/CreateEnergyBinnedData.C (lines 85-171)
* `findBin`, `integralBins`, `sweepPoints`, `getOptimalCutSweep`
                          — src/src/evaluation/GetOptimalCut.C (lines 58-100),
                            with ROOT TH1 fixed-width binning semantics
                            (TAxis::FindBin, TH1::Integral) made explicit
* `UpdateOrInsertByKey`   — src/src/utils/UpdateOrInsertByKey.C (lines 45-147),
                            with a ROOT TTree modelled as a branch schema plus
                            an ordered row list
* `addCVNMax`             — src/src/utils/FilterInputData.C (lines 52-59)

Machine doubles are modelled as exact rationals (`ℚ`); the square roots of the
error formulas force `ℝ` (`Real.sqrt`) in `ComputeMetrics`.
-/

/-- Mirrors `struct MethodMetrics` of CreateEnergyBinnedData.C. -/
structure MethodMetrics where
  efficiency : ℝ
  purity : ℝ
  fom : ℝ
  effErr : ℝ
  purErr : ℝ
  fomErr : ℝ

/-- Function `ComputeMetrics(nSig, nBkg, totalSignal)` of CreateEnergyBinnedData.C:
efficiency, purity, FoM and their binomial / propagated errors, each guarded
against a zero denominator by returning 0. -/
noncomputable def ComputeMetrics (nSig nBkg totalSignal : ℝ) : MethodMetrics :=
  let efficiency := if totalSignal > 0 then nSig / totalSignal else 0
  let purity := if nSig + nBkg > 0 then nSig / (nSig + nBkg) else 0
  let fom := efficiency * purity
  let effErr := if totalSignal > 0 then
      Real.sqrt (efficiency * (1 - efficiency) / totalSignal) else 0
  let purErr := if nSig + nBkg > 0 then
      Real.sqrt (purity * (1 - purity) / (nSig + nBkg)) else 0
  let fomErr := Real.sqrt ((purity * effErr) ^ 2 + (efficiency * purErr) ^ 2)
  ⟨efficiency, purity, fom, effErr, purErr, fomErr⟩

/-- ROOT `TAxis::FindBin` for a fixed-width axis of `nBins` bins over
`[lo, hi)`: underflow is bin 0, overflow (including `x = hi`) is bin
`nBins + 1`, and an in-range score lands in bin
`1 + ⌊nBins * (x - lo) / (hi - lo)⌋`. -/
def findBin (nBins : ℕ) (lo hi x : ℚ) : ℤ :=
  if x < lo then 0
  else if hi ≤ x then (nBins : ℤ) + 1
  else 1 + Int.floor ((nBins : ℚ) * (x - lo) / (hi - lo))

/-- Content of bin `i` of the histogram obtained by filling every score of
`sample` (ROOT `TH1::Fill` / `GetBinContent`). -/
def getBinContent (sample : List ℚ) (nBins : ℕ) (lo hi : ℚ) (i : ℤ) : ℕ :=
  (sample.filter (fun s => findBin nBins lo hi s = i)).length

/-- ROOT `TH1::Integral(a, b)`: the sum of the bin contents for bins
`a ≤ i ≤ b` (under- and overflow excluded when `1 ≤ a` and `b ≤ nBins`). -/
def integralBins (sample : List ℚ) (nBins : ℕ) (lo hi : ℚ) (a b : ℤ) : ℕ :=
  ∑ i ∈ Finset.Icc a b, getBinContent sample nBins lo hi i

/-- ROOT `TH1::GetBinLowEdge(i)` for the fixed-width axis. -/
def getBinLowEdge (nBins : ℕ) (lo hi : ℚ) (i : ℤ) : ℚ :=
  lo + (i - 1) * (hi - lo) / (nBins : ℚ)

/-- One entry of the `cuts` / `efficiencies` / `purities` / `fomValues`
vectors built by the sweep loop of GetOptimalCut.C. -/
structure MetricPoint where
  cut : ℚ
  efficiency : ℚ
  purity : ℚ
  fom : ℚ
deriving DecidableEq, Repr

/-- The body of the sweep loop of GetOptimalCut.C (lines 87-100) at loop
counter `i`: `cut = GetBinLowEdge(i)`, `tp = hSignal.Integral(i, nBins)`,
`fp = hBackground.Integral(i, nBins)`, `efficiency = tp / totalSignal`,
`purity = tp + fp > 0 ? tp / (tp + fp) : 0`, `fom = efficiency * purity`. -/
def sweepPoint (sig bkg : List ℚ) (nBins : ℕ) (lo hi : ℚ) (i : ℤ) : MetricPoint :=
  let totalSignal : ℚ := (integralBins sig nBins lo hi 1 nBins : ℚ)
  let cutValue := getBinLowEdge nBins lo hi i
  let tp : ℚ := (integralBins sig nBins lo hi i nBins : ℚ)
  let fp : ℚ := (integralBins bkg nBins lo hi i nBins : ℚ)
  let efficiency := tp / totalSignal
  let purity := if 0 < tp + fp then tp / (tp + fp) else 0
  ⟨cutValue, efficiency, purity, efficiency * purity⟩

/-- The sweep loop of GetOptimalCut.C: the points appended for
`i = 1..nBins`, in loop order. -/
def sweepPoints (sig bkg : List ℚ) (nBins : ℕ) (lo hi : ℚ) : List MetricPoint :=
  (List.range nBins).map (fun j : ℕ => sweepPoint sig bkg nBins lo hi ((j : ℤ) + 1))

/-- The guarded front of GetOptimalCut.C (lines 73-100): it computes
`totalSignal = hSignal.Integral()` first and throws when it is `≤ 0`
(the spec's `EmptyDistributionError`); otherwise it produces the sweep. -/
def getOptimalCutSweep (sig bkg : List ℚ) (nBins : ℕ) (lo hi : ℚ) :
    Except String (List MetricPoint) :=
  if (integralBins sig nBins lo hi 1 nBins : ℚ) ≤ 0 then
    Except.error "Signal histogram is empty. Cannot compute FoM."
  else
    Except.ok (sweepPoints sig bkg nBins lo hi)

/-- A ROOT `TTree` used as a keyed table: `schema` is the list of value
branch names (besides the key branch) and `rows` the ordered entries, each a
key together with an association list of branch values. -/
structure KeyedTree where
  schema : List String
  rows : List (String × List (String × ℚ))
deriving DecidableEq, Repr

/-- Reading branch `c` of one entry: the stored value, or the ROOT default 0
when the entry's branch was never addressed (as happens in
UpdateOrInsertByKey.C when a requested branch is absent from the old tree,
where the holder keeps its 0.0 initialisation). -/
def readVal (vals : List (String × ℚ)) (c : String) : ℚ :=
  (vals.lookup c).getD 0

/-- The per-entry body of the copy loop of UpdateOrInsertByKey.C (lines
99-118): the entry keeps its key; a matching entry receives the supplied
values, any other entry is rewritten onto the requested branches, reading
each one from the old entry. -/
def updRow (keyValue : String) (values : List (String × ℚ))
    (r : String × List (String × ℚ)) : String × List (String × ℚ) :=
  if r.1 = keyValue then (r.1, values)
  else (r.1, (values.map Prod.fst).map (fun c => (c, readVal r.2 c)))

/-- Function `UpdateOrInsertByKey` of UpdateOrInsertByKey.C.  Here `t = none` models a
missing tree.  When the tree has entries, a replacement tree is built whose
value branches are exactly the keys of `values` (lines 92-96); every old
entry is copied in order, reading each requested branch from the old entry
(0 when the old tree lacked the branch); an entry whose key equals
`keyValue` receives the supplied values instead (lines 109-115); if no key
matched, one new entry is appended (lines 121-128).  When the tree exists
with 0 entries, or does not exist, a single entry is filled (lines 134-141);
in the 0-entry case the old branches stay in the schema and unaddressed
branches are written as defaults (read as 0 under `readVal`). -/
def UpdateOrInsertByKey (t : Option KeyedTree) (keyValue : String)
    (values : List (String × ℚ)) : KeyedTree :=
  let newSchema := values.map Prod.fst
  match t with
  | none => ⟨newSchema, [(keyValue, values)]⟩
  | some tr =>
    if tr.rows.isEmpty then
      ⟨tr.schema ++ newSchema.filter (fun c => ¬ c ∈ tr.schema),
        [(keyValue, values)]⟩
    else
      let updatedRows := tr.rows.map (updRow keyValue values)
      let entryUpdated := tr.rows.any (fun r => r.1 == keyValue)
      ⟨newSchema,
        if entryUpdated then updatedRows
        else updatedRows ++ [(keyValue, values)]⟩

/-- The value of column `c` in row `j` of the table: `none` when the tree
has no branch `c` (reading a missing branch is an error in ROOT, not a 0). -/
def getCol (t : KeyedTree) (j : ℕ) (c : String) : Option ℚ :=
  if c ∈ t.schema then (t.rows[j]?).map (fun r => readVal r.2 c) else none

/-- The `enum class InteractionType` of FilterInputData.C. -/
inductive InteractionType where
  | NuE
  | NuMu
  | NC
deriving DecidableEq, Repr

/-- The `addCVNMax` lambda of FilterInputData.C (lines 52-59), translated
statement by statement: the running state is the pair
`(maxScore, predictedClass)`, initialised to `(cvnNuMu, NuMu)`; the first
`if` promotes NuE, the second promotes NC while writing `cvnNuMu` (not
`cvnNC`) into `maxScore`; the return value compares `predictedClass` with
`signalType`. -/
def addCVNMax (signalType : InteractionType) (cvnNuE cvnNuMu cvnNC : ℚ) : ℚ :=
  let maxScore0 : ℚ := cvnNuMu
  let predicted0 : InteractionType := InteractionType.NuMu
  let maxScore1 : ℚ := if cvnNuE > maxScore0 then cvnNuE else maxScore0
  let predicted1 : InteractionType :=
    if cvnNuE > maxScore0 then InteractionType.NuE else predicted0
  let maxScore2 : ℚ := if cvnNC > maxScore1 then cvnNuMu else maxScore1
  let predicted2 : InteractionType :=
    if cvnNC > maxScore1 then InteractionType.NC else predicted1
  if predicted2 = signalType then 1 else 0

/-- Variant of `addCVNMax` whose NC branch writes `cvnNC` into `maxScore`
(the "intended fix" discussed in the spec); used to show the original
assignment is a dead store. -/
def addCVNMaxNCScore (signalType : InteractionType) (cvnNuE cvnNuMu cvnNC : ℚ) : ℚ :=
  let maxScore0 : ℚ := cvnNuMu
  let predicted0 : InteractionType := InteractionType.NuMu
  let maxScore1 : ℚ := if cvnNuE > maxScore0 then cvnNuE else maxScore0
  let predicted1 : InteractionType :=
    if cvnNuE > maxScore0 then InteractionType.NuE else predicted0
  let maxScore2 : ℚ := if cvnNC > maxScore1 then cvnNC else maxScore1
  let predicted2 : InteractionType :=
    if cvnNC > maxScore1 then InteractionType.NC else predicted1
  if predicted2 = signalType then 1 else 0

/-- The strict argmax of the three CVN scores with the tie-breaks of the
code: NC only when `cvnNC` strictly exceeds both others, NuE only when
`cvnNuE` strictly exceeds `cvnNuMu`, otherwise NuMu. -/
def predictedClass (cvnNuE cvnNuMu cvnNC : ℚ) : InteractionType :=
  if cvnNC > max cvnNuE cvnNuMu then InteractionType.NC
  else if cvnNuE > cvnNuMu then InteractionType.NuE
  else InteractionType.NuMu

/-- One event of the Signal or Background tree of CreateEnergyBinnedData.C:
its true neutrino energy and its per-method MVA scores, addressed by branch
name. -/
structure Event where
  trueNuE : ℚ
  scores : List (String × ℚ)
deriving DecidableEq, Repr

/-- The MVA score of `ev` on branch `m`. -/
def methodScore (ev : Event) (m : String) : ℚ :=
  (ev.scores.lookup m).getD 0

/-- One row of the output tree `data` of CreateEnergyBinnedData.C. -/
structure EnergyBinRow where
  binMin : ℚ
  binMax : ℚ
  binMid : ℚ
  binCount : ℚ
  methods : List (String × MethodMetrics)

/-- Function `CreateEnergyBinnedData` of CreateEnergyBinnedData.C (lines 85-171):
validates that the energy-bin-edge list has at least two entries (throwing
the spec's `InvalidBinningError` otherwise, before any output row exists);
then, for each adjacent edge pair `[lo, hi)`, filters both samples by
`lo ≤ TrueNuE < hi`, counts events passing each method's cut, and invokes
`ComputeMetrics (nSig, nBkg, nSigTotal)`. -/
noncomputable def CreateEnergyBinnedData (sig bkg : List Event)
    (methodCutValues : List (String × ℚ)) (energyBinEdges : List ℚ) :
    Except String (List EnergyBinRow) :=
  if energyBinEdges.length < 2 then
    Except.error "Energy bin list must contain at least two entries."
  else
    Except.ok ((List.range (energyBinEdges.length - 1)).map (fun i =>
      let binMin := energyBinEdges.getD i 0
      let binMax := energyBinEdges.getD (i + 1) 0
      let sigBin := sig.filter (fun e => binMin ≤ e.trueNuE ∧ e.trueNuE < binMax)
      let bkgBin := bkg.filter (fun e => binMin ≤ e.trueNuE ∧ e.trueNuE < binMax)
      let nSigTotal : ℚ := sigBin.length
      let nBkgTotal : ℚ := bkgBin.length
      { binMin := binMin
        binMax := binMax
        binMid := (binMin + binMax) / 2
        binCount := nSigTotal + nBkgTotal
        methods := methodCutValues.map (fun mc =>
          let nSig : ℚ := (sigBin.filter (fun e => methodScore e mc.1 > mc.2)).length
          let nBkg : ℚ := (bkgBin.filter (fun e => methodScore e mc.1 > mc.2)).length
          (mc.1, ComputeMetrics (nSig : ℝ) (nBkg : ℝ) (nSigTotal : ℝ))) }))

/-- The signal scores of the concrete scenario of the spec. -/
def sigScenario : List ℚ := [9/10, 8/10, 7/10, 2/10]

/-- The background scores of the concrete scenario of the spec. -/
def bkgScenario : List ℚ := [1/10, 2/10, 3/10, 9/10]

/-- A two-row results table (as written by GetOptimalCut.C) used in witnesses. -/
def exPerfTable : KeyedTree :=
  ⟨["MaxCut"], [("BDT", [("MaxCut", 1/2)]), ("MLP", [("MaxCut", 1/4)])]⟩

/-- A one-row table whose single column is not among the upserted columns;
used to exhibit the dropped-column behaviour of `UpdateOrInsertByKey`. -/
def exDropTable : KeyedTree :=
  ⟨["A"], [("K1", [("A", 5)])]⟩

/-! ## Helper lemmas -/

theorem ite_eq_swap (a b : InteractionType) (x y : ℚ) :
    (if a = b then x else y) = if b = a then x else y := by
  by_cases h : a = b
  · rw [if_pos h, if_pos h.symm]
  · rw [if_neg h, if_neg (fun hh => h hh.symm)]

theorem predictedClass_eval (e m c : ℚ) :
    (if c > (if e > m then e else m) then InteractionType.NC
     else if e > m then InteractionType.NuE else InteractionType.NuMu) =
      predictedClass e m c := by
  unfold predictedClass
  rcases le_or_lt e m with h1 | h1
  · simp [max_eq_right h1, not_lt.mpr h1]
  · simp [max_eq_left h1.le, h1]

/-! ## C2 — MetricsCalculator formulas -/

/-- C2: `ComputeMetrics(nSig, nBkg, totalSignal)` returns
`efficiency = nSig/totalSignal` when `totalSignal > 0` and 0 otherwise;
`purity = nSig/(nSig+nBkg)` when `nSig+nBkg > 0` and 0 otherwise;
`fom = efficiency * purity`;
`effErr = sqrt(efficiency*(1-efficiency)/totalSignal)` when `totalSignal > 0`
and 0 otherwise; `purErr = sqrt(purity*(1-purity)/(nSig+nBkg))` when
`nSig+nBkg > 0` and 0 otherwise;
`fomErr = sqrt((purity*effErr)^2 + (efficiency*purErr)^2)`.
It is a total function: degenerate (zero) denominators produce 0, never an
error. -/
theorem computeMetrics_spec (nSig nBkg totalSignal : ℝ) :
    (ComputeMetrics nSig nBkg totalSignal).efficiency =
      (if totalSignal > 0 then nSig / totalSignal else 0) ∧
    (ComputeMetrics nSig nBkg totalSignal).purity =
      (if nSig + nBkg > 0 then nSig / (nSig + nBkg) else 0) ∧
    (ComputeMetrics nSig nBkg totalSignal).fom =
      (ComputeMetrics nSig nBkg totalSignal).efficiency *
        (ComputeMetrics nSig nBkg totalSignal).purity ∧
    (ComputeMetrics nSig nBkg totalSignal).effErr =
      (if totalSignal > 0 then
        Real.sqrt ((ComputeMetrics nSig nBkg totalSignal).efficiency *
          (1 - (ComputeMetrics nSig nBkg totalSignal).efficiency) / totalSignal)
       else 0) ∧
    (ComputeMetrics nSig nBkg totalSignal).purErr =
      (if nSig + nBkg > 0 then
        Real.sqrt ((ComputeMetrics nSig nBkg totalSignal).purity *
          (1 - (ComputeMetrics nSig nBkg totalSignal).purity) / (nSig + nBkg))
       else 0) ∧
    (ComputeMetrics nSig nBkg totalSignal).fomErr =
      Real.sqrt
        (((ComputeMetrics nSig nBkg totalSignal).purity *
            (ComputeMetrics nSig nBkg totalSignal).effErr) ^ 2 +
         ((ComputeMetrics nSig nBkg totalSignal).efficiency *
            (ComputeMetrics nSig nBkg totalSignal).purErr) ^ 2) :=
  ⟨rfl, rfl, rfl, rfl, rfl, rfl⟩

/-! ## C10 — addCVNMax argmax behaviour and dead store -/

/-- C10: `addCVNMax` returns 1.0 exactly when `signalType` equals the strict
argmax of the three scores (ties favouring NuMu over NuE and NuMu/NuE over
NC), and 0.0 otherwise; and the NC branch's `maxScore = cvnNuMu` assignment
is a dead store: replacing it by `maxScore = cvnNC` leaves the returned
value unchanged for every input, because `maxScore` is never read after that
branch. -/
theorem addCVNMax_argmax_dead_store (signalType : InteractionType)
    (cvnNuE cvnNuMu cvnNC : ℚ) :
    addCVNMax signalType cvnNuE cvnNuMu cvnNC =
      (if signalType = predictedClass cvnNuE cvnNuMu cvnNC then 1 else 0) ∧
    addCVNMax signalType cvnNuE cvnNuMu cvnNC =
      addCVNMaxNCScore signalType cvnNuE cvnNuMu cvnNC := by
  constructor
  · show (if (if cvnNC > (if cvnNuE > cvnNuMu then cvnNuE else cvnNuMu)
              then InteractionType.NC
              else if cvnNuE > cvnNuMu then InteractionType.NuE
              else InteractionType.NuMu) = signalType then (1 : ℚ) else 0) = _
    rw [predictedClass_eval, ite_eq_swap]
  · rfl

/-! ## C9 — EnergyBinnedEvaluator rejects short edge lists -/

/-- C9: for every bin-edge list with fewer than 2 entries,
`CreateEnergyBinnedData` fails with the invalid-binning error (the spec's
`InvalidBinningError`) and produces no output rows. -/
theorem energyBinned_short_edges_error (sig bkg : List Event)
    (cuts : List (String × ℚ)) (edges : List ℚ) (h : edges.length < 2) :
    CreateEnergyBinnedData sig bkg cuts edges =
      Except.error "Energy bin list must contain at least two entries." ∧
    ∀ out, CreateEnergyBinnedData sig bkg cuts edges ≠ Except.ok out := by
  unfold CreateEnergyBinnedData
  rw [if_pos h]
  exact ⟨rfl, fun out hout => by cases hout⟩

/-- Witness for C9 at the length-1 edge list `[0]`. -/
theorem energyBinned_short_edges_error_witness :
    ([(0 : ℚ)].length < 2) ∧
    CreateEnergyBinnedData [] [] [] [(0 : ℚ)] =
      Except.error "Energy bin list must contain at least two entries." :=
  ⟨by decide, (energyBinned_short_edges_error [] [] [] [(0 : ℚ)] (by decide)).1⟩

/-! ## C6 — empty signal distribution aborts the sweep -/

/-- C6: whenever the signal histogram's total integral is `≤ 0`, the sweep of
GetOptimalCut.C fails with the empty-distribution error (the spec's
`EmptyDistributionError`) and returns no points; and whenever it does return
points, the total signal integral is strictly positive, so every efficiency
is a ratio with a nonzero denominator (never a NaN-producing 0/0). -/
theorem sweep_empty_signal_error (sig bkg : List ℚ) (nBins : ℕ) (lo hi : ℚ) :
    ((integralBins sig nBins lo hi 1 nBins : ℚ) ≤ 0 →
      getOptimalCutSweep sig bkg nBins lo hi =
        Except.error "Signal histogram is empty. Cannot compute FoM.") ∧
    (∀ ps, getOptimalCutSweep sig bkg nBins lo hi = Except.ok ps →
      0 < (integralBins sig nBins lo hi 1 nBins : ℚ)) := by
  constructor
  · intro h
    unfold getOptimalCutSweep
    rw [if_pos h]
  · intro ps h
    unfold getOptimalCutSweep at h
    by_cases hle : (integralBins sig nBins lo hi 1 nBins : ℚ) ≤ 0
    · rw [if_pos hle] at h
      cases h
    · exact not_le.mp hle

/-- Witness for C6 on an empty signal sample. -/
theorem sweep_empty_signal_error_witness :
    ((integralBins ([] : List ℚ) 4 0 1 1 4 : ℚ) ≤ 0) ∧
    getOptimalCutSweep [] [] 4 0 1 =
      Except.error "Signal histogram is empty. Cannot compute FoM." :=
  ⟨by decide, (sweep_empty_signal_error [] [] 4 0 1).1 (by decide)⟩

/-! ## Helper lemmas for the sweep -/

theorem getElem?_some_lt {α : Type} {l : List α} {i : ℕ} {a : α}
    (h : l[i]? = some a) : i < l.length := by
  by_contra hlen
  rw [List.getElem?_eq_none (le_of_not_lt hlen)] at h
  cases h

theorem integralBins_anti_left (s : List ℚ) (n : ℕ) (lo hi : ℚ) {a a' b : ℤ}
    (h : a ≤ a') :
    integralBins s n lo hi a' b ≤ integralBins s n lo hi a b :=
  Finset.sum_le_sum_of_subset (Finset.Icc_subset_Icc h le_rfl)

theorem total_pos_facts {s : List ℚ} {n : ℕ} {lo hi : ℚ}
    (h : 0 < integralBins s n lo hi 1 n) : lo < hi ∧ 0 < n := by
  have h' : ∑ i ∈ Finset.Icc (1 : ℤ) (n : ℤ), getBinContent s n lo hi i ≠ 0 := by
    unfold integralBins at h
    omega
  obtain ⟨i, hmem, hcnt⟩ := Finset.exists_ne_zero_of_sum_ne_zero h'
  rw [Finset.mem_Icc] at hmem
  have hfne : s.filter (fun x => findBin n lo hi x = i) ≠ [] := by
    intro hf
    rw [getBinContent, hf] at hcnt
    exact hcnt rfl
  obtain ⟨x, hxmem⟩ := List.exists_mem_of_ne_nil _ hfne
  have hbin : findBin n lo hi x = i :=
    of_decide_eq_true (List.mem_filter.mp hxmem).2
  unfold findBin at hbin
  split_ifs at hbin with h1 h2
  · omega
  · omega
  · refine ⟨lt_of_le_of_lt (not_lt.mp h1) (not_le.mp h2), ?_⟩
    omega

theorem sweepPoints_length (sig bkg : List ℚ) (n : ℕ) (lo hi : ℚ) :
    (sweepPoints sig bkg n lo hi).length = n := by
  rw [sweepPoints, List.length_map, List.length_range]

theorem sweepPoints_getElem (sig bkg : List ℚ) (n : ℕ) (lo hi : ℚ) {j : ℕ}
    (hj : j < n) :
    (sweepPoints sig bkg n lo hi)[j]? =
      some (sweepPoint sig bkg n lo hi ((j : ℤ) + 1)) := by
  rw [sweepPoints, List.getElem?_map, List.getElem?_range hj, Option.map_some']

theorem sweepPoint_cut (sig bkg : List ℚ) (n : ℕ) (lo hi : ℚ) (i : ℤ) :
    (sweepPoint sig bkg n lo hi i).cut = getBinLowEdge n lo hi i := rfl

theorem sweepPoint_efficiency (sig bkg : List ℚ) (n : ℕ) (lo hi : ℚ) (i : ℤ) :
    (sweepPoint sig bkg n lo hi i).efficiency =
      (integralBins sig n lo hi i n : ℚ) / (integralBins sig n lo hi 1 n : ℚ) := rfl

theorem sweepPoint_fom_eq (sig bkg : List ℚ) (n : ℕ) (lo hi : ℚ) (i : ℤ) :
    (sweepPoint sig bkg n lo hi i).fom =
      (sweepPoint sig bkg n lo hi i).efficiency *
        (sweepPoint sig bkg n lo hi i).purity := rfl

theorem scenario_total : integralBins sigScenario 4 0 1 1 4 = 4 := by
  rw [integralBins, show (Finset.Icc (1 : ℤ) 4) = ({1, 2, 3, 4} : Finset ℤ) by decide]
  rw [Finset.sum_insert (by decide), Finset.sum_insert (by decide),
    Finset.sum_insert (by decide), Finset.sum_singleton]
  norm_num [getBinContent, findBin, sigScenario, List.filter]

theorem scenario_tp4 : integralBins sigScenario 4 0 1 4 4 = 2 := by
  rw [integralBins, Finset.Icc_self, Finset.sum_singleton]
  norm_num [getBinContent, findBin, sigScenario, List.filter]

theorem scenario_fp4 : integralBins bkgScenario 4 0 1 4 4 = 1 := by
  rw [integralBins, Finset.Icc_self, Finset.sum_singleton]
  norm_num [getBinContent, findBin, bkgScenario, List.filter]

/-! ## C8 — FoM is exactly efficiency times purity -/

/-- C8: for every sweep point appended by GetOptimalCut.C, the stored `fom`
equals the product of the stored `efficiency` and `purity`; the same holds
for `ComputeMetrics` of CreateEnergyBinnedData.C. -/
theorem fom_eq_eff_mul_pur :
    (∀ (sig bkg : List ℚ) (nBins : ℕ) (lo hi : ℚ) (p : MetricPoint),
      p ∈ sweepPoints sig bkg nBins lo hi → p.fom = p.efficiency * p.purity) ∧
    (∀ nSig nBkg totalSignal : ℝ,
      (ComputeMetrics nSig nBkg totalSignal).fom =
        (ComputeMetrics nSig nBkg totalSignal).efficiency *
          (ComputeMetrics nSig nBkg totalSignal).purity) := by
  constructor
  · intro sig bkg nBins lo hi p hp
    obtain ⟨j, _, rfl⟩ := List.mem_map.mp hp
    rfl
  · intro nSig nBkg totalSignal
    rfl

/-- Witness for C8: the point at cut 0.75 of the spec's concrete scenario. -/
theorem fom_eq_eff_mul_pur_witness :
    (sweepPoint sigScenario bkgScenario 4 0 1 4).fom =
      (sweepPoint sigScenario bkgScenario 4 0 1 4).efficiency *
        (sweepPoint sigScenario bkgScenario 4 0 1 4).purity :=
  fom_eq_eff_mul_pur.1 sigScenario bkgScenario 4 0 1 _
    (List.mem_map.mpr ⟨3, List.mem_range.mpr (by norm_num), by norm_num⟩)

/-! ## C4 — efficiency bounds and tail-sum monotonicity -/

/-- C4: whenever the total signal integral is positive, every sweep point's
efficiency lies in `[0, 1]`, and efficiency is non-increasing from each
sweep point to the next (the points being ordered by ascending cut). -/
theorem sweep_efficiency_bounds_mono (sig bkg : List ℚ) (nBins : ℕ)
    (lo hi : ℚ) (htot : 0 < integralBins sig nBins lo hi 1 nBins) :
    (∀ p ∈ sweepPoints sig bkg nBins lo hi,
      0 ≤ p.efficiency ∧ p.efficiency ≤ 1) ∧
    (∀ (j : ℕ) (pj pj1 : MetricPoint),
      (sweepPoints sig bkg nBins lo hi)[j]? = some pj →
      (sweepPoints sig bkg nBins lo hi)[j + 1]? = some pj1 →
      pj1.efficiency ≤ pj.efficiency) := by
  have htotQ : (0 : ℚ) < (integralBins sig nBins lo hi 1 nBins : ℚ) := by
    exact_mod_cast htot
  constructor
  · intro p hp
    obtain ⟨j, _, rfl⟩ := List.mem_map.mp hp
    rw [sweepPoint_efficiency]
    constructor
    · exact div_nonneg (Nat.cast_nonneg _) htotQ.le
    · rw [div_le_one htotQ]
      exact_mod_cast integralBins_anti_left sig nBins lo hi
        (by omega : (1 : ℤ) ≤ (j : ℤ) + 1)
  · intro j pj pj1 hj hj1
    have hlt1 : j + 1 < nBins := by
      have := getElem?_some_lt hj1
      rwa [sweepPoints_length] at this
    have hlt : j < nBins := by omega
    rw [sweepPoints_getElem sig bkg nBins lo hi hlt] at hj
    rw [sweepPoints_getElem sig bkg nBins lo hi hlt1] at hj1
    obtain rfl : sweepPoint sig bkg nBins lo hi ((j : ℤ) + 1) = pj :=
      Option.some.inj hj
    obtain rfl : sweepPoint sig bkg nBins lo hi (((j : ℕ) + 1 : ℕ) + 1) = pj1 :=
      Option.some.inj hj1
    rw [sweepPoint_efficiency, sweepPoint_efficiency]
    rw [div_le_div_iff_of_pos_right htotQ]
    have hle : ((j : ℤ) + 1) ≤ (((j : ℕ) + 1 : ℕ) : ℤ) + 1 := by push_cast; omega
    exact_mod_cast integralBins_anti_left sig nBins lo hi hle

/-- Witness for C4 at the concrete scenario: the first point's efficiency is
within bounds and the second point's efficiency does not exceed it. -/
theorem sweep_efficiency_bounds_mono_witness :
    (0 ≤ (sweepPoint sigScenario bkgScenario 4 0 1 1).efficiency ∧
      (sweepPoint sigScenario bkgScenario 4 0 1 1).efficiency ≤ 1) ∧
    (sweepPoint sigScenario bkgScenario 4 0 1 2).efficiency ≤
      (sweepPoint sigScenario bkgScenario 4 0 1 1).efficiency := by
  have htot : 0 < integralBins sigScenario 4 0 1 1 4 := by
    rw [scenario_total]; omega
  constructor
  · exact (sweep_efficiency_bounds_mono sigScenario bkgScenario 4 0 1 htot).1 _
      (List.mem_map.mpr ⟨0, List.mem_range.mpr (by norm_num), by norm_num⟩)
  · exact (sweep_efficiency_bounds_mono sigScenario bkgScenario 4 0 1 htot).2 0
      (sweepPoint sigScenario bkgScenario 4 0 1 1)
      (sweepPoint sigScenario bkgScenario 4 0 1 2)
      (by rw [sweepPoints_getElem sigScenario bkgScenario 4 0 1 (by norm_num)]
          norm_num)
      (by rw [sweepPoints_getElem sigScenario bkgScenario 4 0 1 (by norm_num)]
          norm_num)

/-! ## C3 — sweep structure and the concrete scenario -/

/-- C3: for samples with positive total signal integral, the sweep succeeds
and produces exactly `nBins` points; the point of index `j` (loop counter
`i = j + 1`) has cut equal to the lower edge of histogram bin `i`,
`tp` the signal-histogram integral over bins `[i, nBins]`, `fp` the same
integral of the background histogram, efficiency `tp / totalSignal`, purity
`tp / (tp + fp)` guarded at 0, and fom their product; the cuts are strictly
ascending along the list.  In particular, in the spec's concrete scenario
(signal `[0.9, 0.8, 0.7, 0.2]`, background `[0.1, 0.2, 0.3, 0.9]`,
`nBins = 4`, range `[0, 1]`), the point at cut `0.75` has `tp = 2`,
`fp = 1`, efficiency `1/2`, purity `2/3`, fom `1/3`. -/
theorem sweep_points_spec :
    (∀ (sig bkg : List ℚ) (nBins : ℕ) (lo hi : ℚ),
      0 < integralBins sig nBins lo hi 1 nBins →
      getOptimalCutSweep sig bkg nBins lo hi =
        Except.ok (sweepPoints sig bkg nBins lo hi) ∧
      (sweepPoints sig bkg nBins lo hi).length = nBins ∧
      (∀ j : ℕ, j < nBins →
        (sweepPoints sig bkg nBins lo hi)[j]? = some
          { cut := getBinLowEdge nBins lo hi ((j : ℤ) + 1)
            efficiency := (integralBins sig nBins lo hi ((j : ℤ) + 1) nBins : ℚ) /
              (integralBins sig nBins lo hi 1 nBins : ℚ)
            purity :=
              if 0 < (integralBins sig nBins lo hi ((j : ℤ) + 1) nBins : ℚ) +
                  (integralBins bkg nBins lo hi ((j : ℤ) + 1) nBins : ℚ) then
                (integralBins sig nBins lo hi ((j : ℤ) + 1) nBins : ℚ) /
                  ((integralBins sig nBins lo hi ((j : ℤ) + 1) nBins : ℚ) +
                    (integralBins bkg nBins lo hi ((j : ℤ) + 1) nBins : ℚ))
              else 0
            fom := ((integralBins sig nBins lo hi ((j : ℤ) + 1) nBins : ℚ) /
                (integralBins sig nBins lo hi 1 nBins : ℚ)) *
              (if 0 < (integralBins sig nBins lo hi ((j : ℤ) + 1) nBins : ℚ) +
                  (integralBins bkg nBins lo hi ((j : ℤ) + 1) nBins : ℚ) then
                (integralBins sig nBins lo hi ((j : ℤ) + 1) nBins : ℚ) /
                  ((integralBins sig nBins lo hi ((j : ℤ) + 1) nBins : ℚ) +
                    (integralBins bkg nBins lo hi ((j : ℤ) + 1) nBins : ℚ))
              else 0) }) ∧
      (∀ (j k : ℕ) (pj pk : MetricPoint),
        (sweepPoints sig bkg nBins lo hi)[j]? = some pj →
        (sweepPoints sig bkg nBins lo hi)[k]? = some pk →
        j < k → pj.cut < pk.cut)) ∧
    (integralBins sigScenario 4 0 1 4 4 = 2 ∧
      integralBins bkgScenario 4 0 1 4 4 = 1 ∧
      (sweepPoints sigScenario bkgScenario 4 0 1)[3]? =
        some ⟨3/4, 1/2, 2/3, 1/3⟩) := by
  constructor
  · intro sig bkg nBins lo hi htot
    obtain ⟨hlh, hn⟩ := total_pos_facts htot
    have htotQ : (0 : ℚ) < (integralBins sig nBins lo hi 1 nBins : ℚ) := by
      exact_mod_cast htot
    refine ⟨?_, sweepPoints_length sig bkg nBins lo hi, ?_, ?_⟩
    · unfold getOptimalCutSweep
      rw [if_neg (not_le.mpr htotQ)]
    · intro j hj
      rw [sweepPoints_getElem sig bkg nBins lo hi hj]
      rfl
    · intro j k pj pk hjget hkget hjk
      have hkn : k < nBins := by
        have := getElem?_some_lt hkget
        rwa [sweepPoints_length] at this
      have hjn : j < nBins := by omega
      rw [sweepPoints_getElem sig bkg nBins lo hi hjn] at hjget
      rw [sweepPoints_getElem sig bkg nBins lo hi hkn] at hkget
      obtain rfl : sweepPoint sig bkg nBins lo hi ((j : ℤ) + 1) = pj :=
        Option.some.inj hjget
      obtain rfl : sweepPoint sig bkg nBins lo hi ((k : ℤ) + 1) = pk :=
        Option.some.inj hkget
      rw [sweepPoint_cut, sweepPoint_cut, getBinLowEdge, getBinLowEdge]
      have hnQ : (0 : ℚ) < (nBins : ℚ) := by exact_mod_cast hn
      apply add_lt_add_left
      rw [div_lt_div_iff_of_pos_right hnQ]
      have hjkZ : ((j : ℤ) + 1) < ((k : ℤ) + 1) := by omega
      have hjkQ' : (((j : ℤ) + 1 : ℤ) : ℚ) < (((k : ℤ) + 1 : ℤ) : ℚ) := by
        exact_mod_cast hjkZ
      have hjkQ : (((j : ℤ) + 1 : ℤ) : ℚ) - 1 < (((k : ℤ) + 1 : ℤ) : ℚ) - 1 := by
        linarith
      exact mul_lt_mul_of_pos_right hjkQ (sub_pos.mpr hlh)
  · refine ⟨scenario_tp4, scenario_fp4, ?_⟩
    rw [sweepPoints_getElem sigScenario bkgScenario 4 0 1 (by norm_num : 3 < 4)]
    rw [show ((3 : ℕ) : ℤ) + 1 = 4 by norm_num]
    rw [show sweepPoint sigScenario bkgScenario 4 0 1 4 =
        ⟨getBinLowEdge 4 0 1 4,
          (integralBins sigScenario 4 0 1 4 4 : ℚ) /
            (integralBins sigScenario 4 0 1 1 4 : ℚ),
          if 0 < (integralBins sigScenario 4 0 1 4 4 : ℚ) +
              (integralBins bkgScenario 4 0 1 4 4 : ℚ) then
            (integralBins sigScenario 4 0 1 4 4 : ℚ) /
              ((integralBins sigScenario 4 0 1 4 4 : ℚ) +
                (integralBins bkgScenario 4 0 1 4 4 : ℚ))
          else 0,
          ((integralBins sigScenario 4 0 1 4 4 : ℚ) /
              (integralBins sigScenario 4 0 1 1 4 : ℚ)) *
            (if 0 < (integralBins sigScenario 4 0 1 4 4 : ℚ) +
                (integralBins bkgScenario 4 0 1 4 4 : ℚ) then
              (integralBins sigScenario 4 0 1 4 4 : ℚ) /
                ((integralBins sigScenario 4 0 1 4 4 : ℚ) +
                  (integralBins bkgScenario 4 0 1 4 4 : ℚ))
            else 0)⟩ from rfl]
    rw [scenario_total, scenario_tp4, scenario_fp4]
    norm_num [getBinLowEdge]

/-- Witness for C3 at the concrete scenario, discharging the
positive-total-signal hypothesis. -/
theorem sweep_points_spec_witness :
    0 < integralBins sigScenario 4 0 1 1 4 ∧
    getOptimalCutSweep sigScenario bkgScenario 4 0 1 =
      Except.ok (sweepPoints sigScenario bkgScenario 4 0 1) := by
  have htot : 0 < integralBins sigScenario 4 0 1 1 4 := by
    rw [scenario_total]; omega
  exact ⟨htot, (sweep_points_spec.1 sigScenario bkgScenario 4 0 1 htot).1⟩

/-! ## Helper lemmas for the keyed upsert store -/

theorem some_readVal_eq_lookup {l : List (String × ℚ)} {c : String}
    (h : c ∈ l.map Prod.fst) : some (readVal l c) = l.lookup c := by
  induction l with
  | nil => simp at h
  | cons p tl ih =>
    obtain ⟨k, v⟩ := p
    by_cases hk : c = k
    · subst hk
      simp [readVal, List.lookup_cons]
    · have h' : c ∈ tl.map Prod.fst := by
        rw [List.map_cons] at h
        rcases List.mem_cons.mp h with h0 | h0
        · exact absurd h0 hk
        · exact h0
      have hbeq : (c == k) = false := beq_eq_false_iff_ne.mpr hk
      rw [readVal, List.lookup_cons, hbeq]
      show some ((List.lookup c tl).getD 0) = List.lookup c tl
      rw [← ih h']
      rfl

theorem lookup_map_keys (g : String → ℚ) {ks : List String} {c : String}
    (h : c ∈ ks) :
    (ks.map (fun k => (k, g k))).lookup c = some (g c) := by
  induction ks with
  | nil => simp at h
  | cons k tl ih =>
    by_cases hk : c = k
    · subst hk
      simp [List.lookup_cons]
    · have h' : c ∈ tl := by
        rcases List.mem_cons.mp h with h0 | h0
        · exact absurd h0 hk
        · exact h0
      have hbeq : (c == k) = false := beq_eq_false_iff_ne.mpr hk
      rw [List.map_cons, List.lookup_cons, hbeq]
      show (tl.map (fun k => (k, g k))).lookup c = some (g c)
      exact ih h'

theorem updRow_fst (keyValue : String) (values : List (String × ℚ))
    (r : String × List (String × ℚ)) : (updRow keyValue values r).1 = r.1 := by
  unfold updRow
  split_ifs <;> rfl

theorem upsert_rows_any_true {tr : KeyedTree} {keyValue : String}
    (values : List (String × ℚ)) (hne : tr.rows ≠ [])
    (hupd : tr.rows.any (fun r => r.1 == keyValue) = true) :
    UpdateOrInsertByKey (some tr) keyValue values =
      ⟨values.map Prod.fst, tr.rows.map (updRow keyValue values)⟩ := by
  unfold UpdateOrInsertByKey
  have hemp : tr.rows.isEmpty = false := by
    rw [← Bool.not_eq_true, List.isEmpty_iff]
    exact hne
  simp only [hemp, Bool.false_eq_true, if_false, hupd, if_true]

theorem upsert_rows_any_false {tr : KeyedTree} {keyValue : String}
    (values : List (String × ℚ)) (hne : tr.rows ≠ [])
    (hupd : tr.rows.any (fun r => r.1 == keyValue) = false) :
    UpdateOrInsertByKey (some tr) keyValue values =
      ⟨values.map Prod.fst,
        tr.rows.map (updRow keyValue values) ++ [(keyValue, values)]⟩ := by
  unfold UpdateOrInsertByKey
  have hemp : tr.rows.isEmpty = false := by
    rw [← Bool.not_eq_true, List.isEmpty_iff]
    exact hne
  simp only [hemp, Bool.false_eq_true, if_false, hupd, if_true]

/-! ## C1 — upsert of an existing key (amended) -/

/-- C1 (amended): for an existing table and a key matching exactly one row,
`UpdateOrInsertByKey` leaves the row count unchanged, preserves row order
and keys, sets every supplied column of the matching row to its supplied
value, and leaves every other row's values at the supplied columns
unchanged; however the rewritten tree's schema is exactly the supplied
columns, so existing columns not among `valueColumns` are dropped from all
rows rather than left at their prior values (see the counterexample). -/
theorem upsert_existing_key_amended (t : KeyedTree) (keyValue : String)
    (values : List (String × ℚ))
    (huniq : (t.rows.filter (fun r => r.1 = keyValue)).length = 1) :
    (UpdateOrInsertByKey (some t) keyValue values).rows.length =
      t.rows.length ∧
    (∀ j : ℕ,
      ((UpdateOrInsertByKey (some t) keyValue values).rows[j]?).map Prod.fst =
        (t.rows[j]?).map Prod.fst) ∧
    (UpdateOrInsertByKey (some t) keyValue values).schema =
      values.map Prod.fst ∧
    (∀ (j : ℕ) (row : String × List (String × ℚ)), t.rows[j]? = some row →
      row.1 = keyValue → ∀ c ∈ values.map Prod.fst,
        getCol (UpdateOrInsertByKey (some t) keyValue values) j c =
          values.lookup c) ∧
    (∀ (j : ℕ) (row : String × List (String × ℚ)), t.rows[j]? = some row →
      row.1 ≠ keyValue → ∀ c ∈ values.map Prod.fst,
        getCol (UpdateOrInsertByKey (some t) keyValue values) j c =
          some (readVal row.2 c)) := by
  have hne : t.rows ≠ [] := by
    intro h0
    rw [h0] at huniq
    simp at huniq
  have hany : t.rows.any (fun r => r.1 == keyValue) = true := by
    rw [List.any_eq_true]
    have hfne : (t.rows.filter (fun r => r.1 = keyValue)) ≠ [] := by
      intro h0
      rw [h0] at huniq
      simp at huniq
    obtain ⟨r, hr⟩ := List.exists_mem_of_ne_nil _ hfne
    obtain ⟨hmem, hpred⟩ := List.mem_filter.mp hr
    exact ⟨r, hmem, by rw [beq_iff_eq]; exact of_decide_eq_true hpred⟩
  rw [upsert_rows_any_true values hne hany]
  refine ⟨by simp [List.length_map], ?_, rfl, ?_, ?_⟩
  · intro j
    rw [List.getElem?_map]
    cases h : t.rows[j]? with
    | none => rfl
    | some r => simp [updRow_fst]
  · intro j row hj hkey c hc
    have hrow : updRow keyValue values row = (row.1, values) := by
      rw [updRow, if_pos hkey]
    rw [getCol, if_pos hc]
    show ((t.rows.map (updRow keyValue values))[j]?).map
      (fun r => readVal r.2 c) = values.lookup c
    rw [List.getElem?_map, hj, Option.map_some', Option.map_some', hrow]
    exact some_readVal_eq_lookup hc
  · intro j row hj hkey c hc
    have hrow : updRow keyValue values row =
        (row.1, (values.map Prod.fst).map (fun c => (c, readVal row.2 c))) := by
      rw [updRow, if_neg hkey]
    rw [getCol, if_pos hc]
    show ((t.rows.map (updRow keyValue values))[j]?).map
      (fun r => readVal r.2 c) = some (readVal row.2 c)
    rw [List.getElem?_map, hj, Option.map_some', Option.map_some', hrow]
    show some (readVal ((values.map Prod.fst).map
      (fun c => (c, readVal row.2 c))) c) = some (readVal row.2 c)
    rw [readVal, lookup_map_keys _ hc, Option.getD_some]

/-- Counterexample to C1 as stated: in `exDropTable` the row `K1` has prior
value 5 at its column `A`; after upserting key `K1` with the single value
column `B`, column `A` is no longer present at all (the claim says it should
have been left at its prior value 5). -/
theorem upsert_update_drops_unsupplied_column :
    getCol exDropTable 0 "A" = some 5 ∧
    (exDropTable.rows.filter (fun r => r.1 = "K1")).length = 1 ∧
    getCol (UpdateOrInsertByKey (some exDropTable) "K1" [("B", 7)]) 0 "A" ≠
      some 5 ∧
    getCol (UpdateOrInsertByKey (some exDropTable) "K1" [("B", 7)]) 0 "A" =
      none := by
  refine ⟨by decide, by decide, ?_, by decide⟩
  decide

/-- Witness for C1 on the two-row performance table. -/
theorem upsert_existing_key_amended_witness :
    ((exPerfTable.rows.filter (fun r => r.1 = "BDT")).length = 1) ∧
    (UpdateOrInsertByKey (some exPerfTable) "BDT" [("MaxCut", 3/4)]).rows.length =
      exPerfTable.rows.length ∧
    getCol (UpdateOrInsertByKey (some exPerfTable) "BDT" [("MaxCut", 3/4)]) 0
      "MaxCut" = [("MaxCut", (3/4 : ℚ))].lookup "MaxCut" := by
  refine ⟨by decide, ?_, ?_⟩
  · exact (upsert_existing_key_amended exPerfTable "BDT" [("MaxCut", 3/4)]
      (by decide)).1
  · exact (upsert_existing_key_amended exPerfTable "BDT" [("MaxCut", 3/4)]
      (by decide)).2.2.2.1 0 ("BDT", [("MaxCut", 1/2)]) rfl rfl "MaxCut"
      (by decide)

/-! ## C7 — upsert of a new key (amended) -/

/-- C7 (amended): for an existing table and a key matching no row,
`UpdateOrInsertByKey` appends exactly one new row `(key, values)` at the
end, the row count grows by exactly 1, and the pre-existing rows keep their
order, keys, and their values at the supplied columns (a supplied column
absent from the old tree reads as its ROOT default 0); and for a
non-existent table a new one-row table `{keyColumn: key, ...valueColumns}`
is created.  However the rewritten tree's schema is exactly the supplied
columns, so existing columns not among `valueColumns` are dropped from the
pre-existing rows rather than left unchanged (see the counterexample). -/
theorem upsert_new_key_amended (t : KeyedTree) (keyValue : String)
    (values : List (String × ℚ)) (hne : t.rows ≠ [])
    (hnomatch : ∀ r ∈ t.rows, r.1 ≠ keyValue) :
    (UpdateOrInsertByKey (some t) keyValue values).rows.length =
      t.rows.length + 1 ∧
    (UpdateOrInsertByKey (some t) keyValue values).rows[t.rows.length]? =
      some (keyValue, values) ∧
    (∀ j : ℕ, j < t.rows.length →
      ((UpdateOrInsertByKey (some t) keyValue values).rows[j]?).map Prod.fst =
        (t.rows[j]?).map Prod.fst) ∧
    (∀ (j : ℕ) (row : String × List (String × ℚ)), t.rows[j]? = some row →
      ∀ c ∈ values.map Prod.fst,
        getCol (UpdateOrInsertByKey (some t) keyValue values) j c =
          some (readVal row.2 c)) ∧
    (UpdateOrInsertByKey none keyValue values =
      ⟨values.map Prod.fst, [(keyValue, values)]⟩) := by
  have hany : t.rows.any (fun r => r.1 == keyValue) = false := by
    rw [List.any_eq_false]
    intro r hr
    rw [Bool.not_eq_true, beq_eq_false_iff_ne]
    exact hnomatch r hr
  rw [upsert_rows_any_false values hne hany]
  refine ⟨by simp [List.length_append, List.length_map], ?_, ?_, ?_, rfl⟩
  · show ((t.rows.map (updRow keyValue values)) ++
      [(keyValue, values)])[t.rows.length]? = some (keyValue, values)
    rw [List.getElem?_append_right (by simp [List.length_map])]
    simp [List.length_map]
  · intro j hjlen
    show ((t.rows.map (updRow keyValue values)) ++
      [(keyValue, values)])[j]?.map Prod.fst = (t.rows[j]?).map Prod.fst
    rw [List.getElem?_append, if_pos (by simp [List.length_map, hjlen])]
    rw [List.getElem?_map]
    cases h : t.rows[j]? with
    | none => rfl
    | some r => simp [updRow_fst]
  · intro j row hj c hc
    have hjlen : j < t.rows.length := getElem?_some_lt hj
    have hmemrow : row ∈ t.rows := List.getElem?_mem hj
    have hrow : updRow keyValue values row =
        (row.1, (values.map Prod.fst).map (fun c => (c, readVal row.2 c))) := by
      rw [updRow, if_neg (hnomatch row hmemrow)]
    rw [getCol, if_pos hc]
    show (((t.rows.map (updRow keyValue values)) ++
      [(keyValue, values)])[j]?).map (fun r => readVal r.2 c) =
        some (readVal row.2 c)
    rw [List.getElem?_append, if_pos (by simp [List.length_map, hjlen])]
    rw [List.getElem?_map, hj, Option.map_some', Option.map_some', hrow]
    show some (readVal ((values.map Prod.fst).map
      (fun c => (c, readVal row.2 c))) c) = some (readVal row.2 c)
    rw [readVal, lookup_map_keys _ hc, Option.getD_some]

/-- Counterexample to C7 as stated: in `exDropTable` the pre-existing row
`K1` has value 5 at column `A`; after upserting the fresh key `K2` with the
single value column `B`, row `K1` no longer has a column `A` at all (the
claim says pre-existing rows' values are unchanged). -/
theorem upsert_insert_drops_unsupplied_column :
    getCol exDropTable 0 "A" = some 5 ∧
    (∀ r ∈ exDropTable.rows, r.1 ≠ "K2") ∧
    getCol (UpdateOrInsertByKey (some exDropTable) "K2" [("B", 7)]) 0 "A" ≠
      some 5 ∧
    getCol (UpdateOrInsertByKey (some exDropTable) "K2" [("B", 7)]) 0 "A" =
      none := by
  refine ⟨by decide, by decide, ?_, by decide⟩
  decide

/-- Witness for C7: inserting a fresh method row into the two-row
performance table. -/
theorem upsert_new_key_amended_witness :
    (exPerfTable.rows ≠ []) ∧
    (UpdateOrInsertByKey (some exPerfTable) "SVM" [("MaxCut", 3/4)]).rows.length =
      exPerfTable.rows.length + 1 ∧
    (UpdateOrInsertByKey (some exPerfTable) "SVM"
      [("MaxCut", 3/4)]).rows[exPerfTable.rows.length]? =
        some ("SVM", [("MaxCut", 3/4)]) := by
  refine ⟨by decide, ?_, ?_⟩
  · exact (upsert_new_key_amended exPerfTable "SVM" [("MaxCut", 3/4)]
      (by decide) (by decide)).1
  · exact (upsert_new_key_amended exPerfTable "SVM" [("MaxCut", 3/4)]
      (by decide) (by decide)).2.1
